import Mathlib

/-!
# Verification of the FlightCore plugin-install pipeline

Shallow embedding of `src/src-tauri/src/plugin_management/download.rs`
(`install_plugin` and its helpers).  Paths are lists of components
(`List String`), the filesystem is a pair of path sets (directories and
regular files), and the consent channel is a single `Option Bool` slot.

The embedding mirrors the Rust source step by step:
temp-dir creation → archive extraction → plugin detection → consent gate →
conflict resolution → commit, with the staging directory removed once when
the function returns (RAII drop of `TempDir`).
-/

namespace FlightCore

/-- A filesystem path, as its list of components (`["game","R2Northstar"]`). -/
abbrev Path := List String

/-- The error taxonomy of the install pipeline.  The Rust source uses
`ThermiteError`; the spec's taxonomy maps onto it as follows:
`parseError` = the `MiscError` wrapping a mod-string parse failure,
`missingFile` = `ThermiteError::MissingFile`, `pluginsDisabled` and
`userDenied` = the two dedicated `MiscError` strings, `ioError` = any
propagated `std::io::Error`, `archiveError` = a `ZipError`, `channelError` =
a failed front-end emit. -/
inductive InstallError where
  | parseError
  | archiveError
  | missingFile (p : Path)
  | pluginsDisabled
  | userDenied
  | ioError
  | channelError
deriving DecidableEq, Repr

/-- The filesystem: the set of existing directories and of existing regular
files, each as a list of absolute paths (duplicates never inserted). -/
structure FSys where
  dirs : List Path
  files : List Path
deriving DecidableEq, Repr

/-- `p` exists as a directory. -/
def FSys.isDir (fs : FSys) (p : Path) : Prop := p ∈ fs.dirs

/-- `p` exists as a regular file. -/
def FSys.isFile (fs : FSys) (p : Path) : Prop := p ∈ fs.files

/-- `p` exists (as in Rust's `Path::exists`: file or directory). -/
def FSys.pathExists (fs : FSys) (p : Path) : Prop := fs.isDir p ∨ fs.isFile p

instance (fs : FSys) (p : Path) : Decidable (fs.isDir p) :=
  inferInstanceAs (Decidable (p ∈ fs.dirs))
instance (fs : FSys) (p : Path) : Decidable (fs.isFile p) :=
  inferInstanceAs (Decidable (p ∈ fs.files))
instance (fs : FSys) (p : Path) : Decidable (fs.pathExists p) :=
  inferInstanceAs (Decidable (_ ∨ _))

/-- Insert a path into a path list unless already present. -/
def addPath (l : List Path) (p : Path) : List Path :=
  if p ∈ l then l else l ++ [p]

/-- The nonempty initial segments of a path (`[a,b] ↦ [[a],[a,b]]`). -/
def pathInits : Path → List Path
  | [] => []
  | c :: cs => [c] :: (pathInits cs).map (fun q => c :: q)

/-- `fs::create_dir_all p`: creates `p` and every missing ancestor.  Fails
(`ioError`) when some ancestor already exists as a regular file. -/
def FSys.mkdirAll (fs : FSys) (p : Path) : FSys × Option InstallError :=
  if (pathInits p).any (fun q => decide (q ∈ fs.files)) then
    (fs, some .ioError)
  else
    ({ fs with dirs := (pathInits p).foldl addPath fs.dirs }, none)

/-- `fs::create_dir p` (no ancestor creation): the parent must be a
directory and `p` must not already exist. -/
def FSys.createDir (fs : FSys) (p : Path) : FSys × Option InstallError :=
  if p.dropLast ∈ fs.dirs ∧ ¬ (p ∈ fs.dirs ∨ p ∈ fs.files) then
    ({ fs with dirs := addPath fs.dirs p }, none)
  else
    (fs, some .ioError)

/-- Opening `p` with `create → write → truncate` and copying bytes into it:
fails when `p` is a directory, otherwise (the parent having just been
created) the file exists afterwards.  Contents are not modelled. -/
def FSys.createFileTrunc (fs : FSys) (p : Path) : FSys × Option InstallError :=
  if p ∈ fs.dirs then (fs, some .ioError)
  else ({ fs with files := addPath fs.files p }, none)

/-- `fs::copy src dst`: the source must be a regular file (copying a
directory fails), the destination's parent must be a directory, and the
destination must not be a directory. -/
def FSys.copyFile (fs : FSys) (src dst : Path) : FSys × Option InstallError :=
  if src ∈ fs.files ∧ dst.dropLast ∈ fs.dirs ∧ dst ∉ fs.dirs then
    ({ fs with files := addPath fs.files dst }, none)
  else
    (fs, some .ioError)

/-- `fs::remove_dir_all p`: removes `p` and everything below it.  (In the
pipeline it is only invoked on paths obtained from a directory scan, and
the RAII teardown ignores errors, so failure is not modelled.) -/
def FSys.removeDirAll (fs : FSys) (p : Path) : FSys :=
  { dirs := fs.dirs.filter (fun q => ! p.isPrefixOf q),
    files := fs.files.filter (fun q => ! p.isPrefixOf q) }

/-- `p.read_dir()`: `none` when `p` is not a directory, otherwise the names
of the immediate children (directories and files alike, as Rust's
`DirEntry` iteration yields both). -/
def FSys.readDir (fs : FSys) (p : Path) : Option (List String) :=
  if p ∈ fs.dirs then
    some ((fs.dirs ++ fs.files).filterMap
      (fun q => if q ≠ [] ∧ q.dropLast = p then q.getLast? else none))
  else none

/-! ## Mod-string parser (`ParsedThunderstoreModString`) -/

/-- Split a character list at every occurrence of `c` (the pieces, in
order; `n` separators yield `n + 1` pieces). -/
def splitOnChar (c : Char) : List Char → List (List Char)
  | [] => [[]]
  | x :: xs =>
    match splitOnChar c xs with
    | [] => if x = c then [[], []] else [[x]]
    | y :: ys => if x = c then [] :: y :: ys else (x :: y) :: ys

/-- Join character-list pieces with a hyphen between consecutive pieces. -/
def joinHyphen : List (List Char) → List Char
  | [] => []
  | [p] => p
  | p :: q :: rest => p ++ '-' :: joinHyphen (q :: rest)

/-- The parsed `author-name-version` identifier (field names as in the Rust
struct `ParsedThunderstoreModString`). -/
structure ParsedThunderstoreModString where
  author_name : String
  mod_name : String
  version : String
deriving DecidableEq, Repr

/-- Modelled from the spec: the implementation of
`ParsedThunderstoreModString::from_str` lives in the repository's
`mod_management` module, which is not among the provided sources.  Per the
spec (§3, §4.1): split on hyphens; reject strings with fewer than two
hyphens; the author is the first hyphen-delimited token, the version the
last, the name everything in between rejoined with hyphens; all three
fields must be non-empty, a malformed string is a parse failure
(`none`, surfaced as `ParseError`). -/
def ParsedThunderstoreModString.from_str (s : String) :
    Option ParsedThunderstoreModString :=
  let parts := splitOnChar '-' s.data
  match parts with
  | a :: b :: c :: rest =>
    let mid := (b :: c :: rest).dropLast
    let ver := (b :: c :: rest).getLast (by simp)
    let name := joinHyphen mid
    if a = [] ∨ ver = [] ∨ name = [] then none
    else some ⟨⟨a⟩, ⟨name⟩, ⟨ver⟩⟩
  | _ => none

/-! ## Zip-entry path semantics

`ZipArchive` and Rust's `Path` come from external crates/std; their
behaviour on the operations the source uses is embedded directly:
`enclosed_name` (zip 0.6: reject rooted paths and paths whose `..`
components underflow), `Path::components` (empty and interior `.`
components dropped, a leading `.` kept), and `Path::starts_with` (a
component-wise prefix test). -/

/-- One archive entry: its name split at `/` into raw tokens, and whether
the raw name ends in `/` (a directory entry). -/
structure ZipEntry where
  name : List String
  isDir : Bool
deriving DecidableEq, Repr

/-- `Path::components` of a relative path: empty tokens are dropped, `.`
tokens are dropped except in leading position. -/
def pathComponents : List String → List String
  | [] => []
  | t :: ts =>
    (if t = "." then ["."] else if t = "" then [] else [t])
      ++ ts.filter (fun s => ¬ (s = "." ∨ s = ""))

/-- Does the component walk keep a non-negative depth (`..` never escapes
the root)? -/
def resolvableDepth : List String → Nat → Bool
  | [], _ => true
  | c :: cs, d =>
    if c = ".." then
      match d with
      | 0 => false
      | d' + 1 => resolvableDepth cs d'
    else if c = "." then resolvableDepth cs d
    else resolvableDepth cs (d + 1)

/-- zip 0.6 `ZipFile::enclosed_name`: `none` for a rooted name (leading
empty token, i.e. a leading `/`) or when a `..` component underflows;
otherwise the component list of the name (with `..` and a possible leading
`.` still present, exactly as `Path::components` yields them). -/
def enclosedName (raw : List String) : Option (List String) :=
  if raw.head? = some "" then none
  else
    let comps := pathComponents raw
    if resolvableDepth comps 0 then some comps else none

/-- Lexical resolution of `comps` against `base` (what the OS does to the
`.`/`..` components of a path whose directories exist and are not
symlinks). -/
def resolvePath (base : Path) (comps : List String) : Path :=
  comps.foldl
    (fun acc c => if c = "." then acc else if c = ".." then acc.dropLast else acc ++ [c])
    base

/-- `Path::starts_with(".")`: the base `"."` has the single component
`CurDir`, so this holds exactly when the first component is the literal
token `"."` — it does **not** match a first component that merely begins
with a dot character, such as `".hidden"`. -/
def startsWithCurDir (comps : List String) : Bool := comps.head? = some "."

/-- The characters of a file name after its last dot. -/
def afterLastDot (l : List Char) : List Char :=
  (l.reverse.takeWhile (fun c => c ≠ '.')).reverse

/-- Rust `Path::extension` of a final path component: `none` for an empty
name or when the name has no dot beyond its first character (so a leading
dot alone, as in `".dll"`, yields no extension); otherwise the part after
the last dot. -/
def rustExtension (name : String) : Option String :=
  match name.data with
  | [] => none
  | _ :: rest => if rest.contains '.' then some ⟨afterLastDot rest⟩ else none

/-! ## The install pipeline -/

/-- `<game_root>/R2Northstar/plugins`. -/
def pluginsDirOf (gameRoot : Path) : Path := gameRoot ++ ["R2Northstar", "plugins"]

/-- The reserved staging directory nested inside the live plugins dir. -/
def tempDirOf (gameRoot : Path) : Path :=
  pluginsDirOf gameRoot ++ ["___flightcore-temp-plugin-dir"]

/-- One iteration of the extraction loop (`download.rs` lines 59–80):
entries with no enclosed name, or whose enclosed name's first component is
the `.` component, are skipped; a `…/`-named entry creates its directory;
a file entry creates its parent directories and then the file. -/
def extractEntry (td : Path) (fs : FSys) (e : ZipEntry) : FSys × Option InstallError :=
  match enclosedName e.name with
  | none => (fs, none)
  | some comps =>
    if startsWithCurDir comps then (fs, none)
    else
      let out := resolvePath td comps
      if e.isDir then fs.mkdirAll out
      else
        match fs.mkdirAll out.dropLast with
        | (fs', some err) => (fs', some err)
        | (fs', none) => fs'.createFileTrunc out

/-- The whole extraction loop: entries in order, stopping at the first
error (the `?` operator returns it). -/
def extractAll (td : Path) : List ZipEntry → FSys → FSys × Option InstallError
  | [], fs => (fs, none)
  | e :: rest, fs =>
    match extractEntry td fs e with
    | (fs', none) => extractAll td rest fs'
    | r => r

/-- Plugin detection (`download.rs` lines 84–90): read the immediate
entries of `<staging>/plugins` — a read failure (the directory does not
exist) becomes `MissingFile(<staging>/plugins)` — and keep those whose
extension is `dll`. -/
def detectPlugins (fs : FSys) (td : Path) : Except InstallError (List String) :=
  match fs.readDir (td ++ ["plugins"]) with
  | none => .error (.missingFile (td ++ ["plugins"]))
  | some names => .ok (names.filter (fun n => decide (rustExtension n = some "dll")))

/-- Conflict resolution (`download.rs` lines 125–137): scan the immediate
entries of the live plugins directory (a read failure is reported — as in
the source — with the staged `plugins` path), keep the directories whose
name parses as a mod string with `mod_name` equal to the incoming package
name, and `remove_dir_all` each of them. -/
def resolveConflicts (pd td : Path) (packageName : String) (fs : FSys) :
    FSys × Option InstallError :=
  match fs.readDir pd with
  | none => (fs, some (.missingFile (td ++ ["plugins"])))
  | some names =>
    let victims := names.filter (fun n =>
      decide (fs.isDir (pd ++ [n])) &&
      (match ParsedThunderstoreModString.from_str n with
       | some p => decide (p.mod_name = packageName)
       | none => false))
    (victims.foldl (fun a n => a.removeDirAll (pd ++ [n])) fs, none)

/-- The plugin-copy loop of the commit step: each detected plugin file is
copied into the destination under its bare file name. -/
def copyPlugins (td dest : Path) : List String → FSys → FSys × Option InstallError
  | [], fs => (fs, none)
  | n :: rest, fs =>
    match fs.copyFile (td ++ ["plugins", n]) (dest ++ [n]) with
    | (fs', none) => copyPlugins td dest rest fs'
    | r => r

/-- The commit step (`download.rs` lines 139–151): create
`<plugins>/<author>-<name>-<version>` unless it already exists, copy the
staged `manifest.json` into it, then copy every detected plugin file. -/
def commitStep (pd td : Path) (folderName : String) (plugins : List String)
    (fs : FSys) : FSys × Option InstallError :=
  let dest := pd ++ [folderName]
  match (if fs.pathExists dest then (fs, none) else fs.createDir dest :
      FSys × Option InstallError) with
  | (fs1, some e) => (fs1, some e)
  | (fs1, none) =>
    match fs1.copyFile (td ++ ["manifest.json"]) (dest ++ ["manifest.json"]) with
    | (fs2, some e) => (fs2, some e)
    | (fs2, none) => copyPlugins td dest plugins fs2

/-- Everything after an approved consent gate: conflict resolution, then
commit. -/
def postGate (pd td : Path) (packageName folderName : String)
    (plugins : List String) (fs : FSys) : FSys × Option InstallError :=
  match resolveConflicts pd td packageName fs with
  | (fs', some e) => (fs', some e)
  | (fs', none) => commitStep pd td folderName plugins fs'

/-- The arguments of `install_plugin`.  The consent channel's content is
passed separately. -/
structure InstallInput where
  gameRoot : Path
  archive : List ZipEntry
  modString : String
  canInstallPlugins : Bool
deriving Repr

/-- The observable outcome of the body of `install_plugin` (before the
RAII teardown): the returned value (`none` models `Ok(())`), the
filesystem, how many `display-plugin-warning` events were emitted, and
what is left in the consent channel slot. -/
structure BodyOut where
  res : Option InstallError
  fs : FSys
  warningsEmitted : Nat
  consentLeft : Option Bool
deriving DecidableEq, Repr

/-- The body of `install_plugin` between temp-dir creation and the RAII
drop: parse the mod string (line 49), extract the archive (59–80), detect
plugins (84–90); when plugins were found, fail with `PluginsDisabled` if
the capability flag is off (95–99), otherwise emit the warning event (101)
and await the consent channel, a missing value counting as denial
(`unwrap_or(false)`, 106–117); when no plugin was found, fail with
`MissingFile(<staging>/plugins/anyplugins.dll)` (118–122); finally resolve
conflicts and commit. -/
def installBody (inp : InstallInput) (fs1 : FSys) (consent : Option Bool) : BodyOut :=
  let pd := pluginsDirOf inp.gameRoot
  let td := tempDirOf inp.gameRoot
  match ParsedThunderstoreModString.from_str inp.modString with
  | none => ⟨some .parseError, fs1, 0, consent⟩
  | some parsed =>
    let packageName := parsed.mod_name
    let folderName :=
      parsed.author_name ++ "-" ++ packageName ++ "-" ++ parsed.version
    match extractAll td inp.archive fs1 with
    | (fs2, some e) => ⟨some e, fs2, 0, consent⟩
    | (fs2, none) =>
      match detectPlugins fs2 td with
      | .error e => ⟨some e, fs2, 0, consent⟩
      | .ok plugins =>
        if plugins ≠ [] then
          if ¬ inp.canInstallPlugins then ⟨some .pluginsDisabled, fs2, 0, consent⟩
          else if consent.getD false then
            match postGate pd td packageName folderName plugins fs2 with
            | (fs3, r) => ⟨r, fs3, 1, none⟩
          else ⟨some .userDenied, fs2, 1, none⟩
        else ⟨some (.missingFile (td ++ ["plugins", "anyplugins.dll"])), fs2, 0, consent⟩

/-- The observable outcome of a whole `install_plugin` call.
`teardownCount` counts how many times the staging directory's scoped
release (the `TempDir` drop) ran. -/
structure InstallResult where
  res : Option InstallError
  fs : FSys
  warningsEmitted : Nat
  consentLeft : Option Bool
  teardownCount : Nat
deriving DecidableEq, Repr

/-- `install_plugin` (`download.rs` lines 35–154).  The staging directory
is handled per the spec §4.2 (the `TempDir` type comes from the external
`thermite` crate): `create` allocates the reserved directory — modelled
from the spec: failing with `IoError` when it cannot be created, in which
case no teardown is owed — and its scoped release removes it recursively
exactly once when the function returns, on every exit path. -/
def installPlugin (inp : InstallInput) (fs0 : FSys) (consent : Option Bool) :
    InstallResult :=
  let td := tempDirOf inp.gameRoot
  match fs0.mkdirAll td with
  | (fs', some e) => ⟨some e, fs', 0, consent, 0⟩
  | (fs1, none) =>
    let out := installBody inp fs1 consent
    ⟨out.res, out.fs.removeDirAll td, out.warningsEmitted, out.consentLeft, 1⟩

/-! ## Basic lemmas about the filesystem model -/

theorem mem_addPath {l : List Path} {p q : Path} :
    q ∈ addPath l p ↔ q ∈ l ∨ q = p := by
  unfold addPath
  split
  · rename_i hp
    constructor
    · exact Or.inl
    · rintro (h | rfl) <;> [exact h; exact hp]
  · simp [List.mem_append]

theorem mem_addPath_of_mem {l : List Path} {p q : Path} (h : q ∈ l) :
    q ∈ addPath l p := mem_addPath.mpr (Or.inl h)

theorem self_mem_addPath {l : List Path} {p : Path} : p ∈ addPath l p :=
  mem_addPath.mpr (Or.inr rfl)

theorem mem_dirs_removeDirAll {fs : FSys} {p q : Path} :
    q ∈ (fs.removeDirAll p).dirs ↔ q ∈ fs.dirs ∧ p.isPrefixOf q = false := by
  simp [FSys.removeDirAll, List.mem_filter]

theorem mem_files_removeDirAll {fs : FSys} {p q : Path} :
    q ∈ (fs.removeDirAll p).files ↔ q ∈ fs.files ∧ p.isPrefixOf q = false := by
  simp [FSys.removeDirAll, List.mem_filter]

theorem not_pathExists_removeDirAll {fs : FSys} {p q : Path}
    (h : p.isPrefixOf q = true) : ¬ (fs.removeDirAll p).pathExists q := by
  rintro (hd | hf)
  · have h2 := (mem_dirs_removeDirAll.mp hd).2
    rw [h] at h2
    cases h2
  · have h2 := (mem_files_removeDirAll.mp hf).2
    rw [h] at h2
    cases h2

/-- Folding `remove_dir_all` over a list of child names only ever removes
directories. -/
theorem mem_dirs_foldRemove {pd : Path} (names : List String) (fs : FSys)
    {q : Path}
    (h : q ∈ (names.foldl (fun a n => a.removeDirAll (pd ++ [n])) fs).dirs) :
    q ∈ fs.dirs := by
  induction names generalizing fs with
  | nil => simpa using h
  | cons n rest ih =>
    simpa using (mem_dirs_removeDirAll.mp (ih _ (by simpa using h))).1

/-- A directory whose name is in the removal list is gone after the fold. -/
theorem not_mem_dirs_foldRemove {pd : Path} {names : List String} {n : String}
    (fs : FSys) (h : n ∈ names) :
    pd ++ [n] ∉ (names.foldl (fun a m => a.removeDirAll (pd ++ [m])) fs).dirs := by
  induction names generalizing fs with
  | nil => cases h
  | cons m rest ih =>
    rcases List.mem_cons.mp h with rfl | hmem
    · intro hq
      have h2 := (mem_dirs_removeDirAll.mp (mem_dirs_foldRemove rest _ (by simpa using hq))).2
      have h3 : List.isPrefixOf (pd ++ [n]) (pd ++ [n]) = true := by
        simp [List.isPrefixOf_iff_prefix]
      rw [h3] at h2
      cases h2
    · exact fun hq => ih _ hmem (by simpa using hq)

theorem dropLast_append_one {α : Type} (l : List α) (a : α) :
    (l ++ [a]).dropLast = l := by
  simp

theorem getLast?_append_one {α : Type} (l : List α) (a : α) :
    (l ++ [a]).getLast? = some a := by
  simp

/-- Membership in a directory listing is exactly being an immediate child
path (as a directory or a file). -/
theorem mem_readDir {fs : FSys} {p : Path} {l : List String} {n : String}
    (h : fs.readDir p = some l) :
    n ∈ l ↔ (p ++ [n]) ∈ fs.dirs ∨ (p ++ [n]) ∈ fs.files := by
  unfold FSys.readDir at h
  split at h
  · rename_i hp
    cases h
    rw [List.mem_filterMap]
    constructor
    · rintro ⟨q, hq, hfq⟩
      by_cases hcond : q ≠ [] ∧ q.dropLast = p
      · rw [if_pos hcond] at hfq
        have hne := hcond.1
        have heq : q = p ++ [n] := by
          have h3 := List.dropLast_concat_getLast hne
          rw [List.getLast?_eq_getLast q hne] at hfq
          injection hfq with h4
          rw [hcond.2, h4] at h3
          exact h3.symm
        rw [heq] at hq
        simpa [List.mem_append] using hq
      · rw [if_neg hcond] at hfq
        cases hfq
    · intro hmem
      refine ⟨p ++ [n], by simpa [List.mem_append] using hmem, ?_⟩
      rw [if_pos ⟨by simp, dropLast_append_one p n⟩]
      exact getLast?_append_one p n
  · cases h

/-- Splitting at a separator yields one more piece than there are
separators. -/
theorem splitOnChar_length (c : Char) (l : List Char) :
    (splitOnChar c l).length = l.count c + 1 := by
  induction l with
  | nil => simp [splitOnChar]
  | cons x xs ih =>
    unfold splitOnChar
    cases h : splitOnChar c xs with
    | nil => rw [h] at ih; simp at ih
    | cons y ys =>
      rw [h] at ih
      by_cases hx : x = c <;>
        simp only [hx, if_pos, if_neg, List.count_cons, List.length_cons,
          beq_iff_eq, ite_true, ite_false, if_true, if_false] at ih ⊢ <;>
        simp [hx] <;> omega

/-- The plugin-copy loop succeeds when every source file exists, the
destination directory exists and no destination path is a directory; it
leaves directories unchanged, keeps every existing file and creates one
file per plugin, named after the plugin file alone. -/
theorem copyPlugins_ok (td dest : Path) (plugins : List String) (fs : FSys)
    (hd : dest ∈ fs.dirs)
    (hsrc : ∀ n ∈ plugins, (td ++ ["plugins", n]) ∈ fs.files)
    (hnd : ∀ n ∈ plugins, dest ++ [n] ∉ fs.dirs) :
    ∃ fs', copyPlugins td dest plugins fs = (fs', none) ∧
      fs'.dirs = fs.dirs ∧ (∀ q ∈ fs.files, q ∈ fs'.files) ∧
      ∀ n ∈ plugins, dest ++ [n] ∈ fs'.files := by
  induction plugins generalizing fs with
  | nil => exact ⟨fs, rfl, rfl, fun _ h => h, by simp⟩
  | cons n rest ih =>
    unfold copyPlugins
    have hcopy : fs.copyFile (td ++ ["plugins", n]) (dest ++ [n]) =
        ({ fs with files := addPath fs.files (dest ++ [n]) }, none) := by
      unfold FSys.copyFile
      rw [if_pos ⟨hsrc n (by simp), by
        rw [dropLast_append_one]; exact hd, hnd n (by simp)⟩]
    rw [hcopy]
    obtain ⟨fs', h1, h2, h3, h4⟩ :=
      ih { fs with files := addPath fs.files (dest ++ [n]) } hd
        (fun m hm => mem_addPath_of_mem (hsrc m (by simp [hm])))
        (fun m hm => hnd m (by simp [hm]))
    refine ⟨fs', h1, h2, fun q hq => h3 q (mem_addPath_of_mem hq), fun m hm => ?_⟩
    rcases List.mem_cons.mp hm with rfl | hm'
    · exact h3 _ self_mem_addPath
    · exact h4 m hm'

/-! ## Concrete example inputs used by witnesses and scenarios -/

/-- A game rooted at `game/`. -/
def exGameRoot : Path := ["game"]

/-- A well-formed plugin archive: a manifest, a `plugins/` directory and one
native binary in it. -/
def exArchive : List ZipEntry :=
  [⟨["manifest.json"], false⟩, ⟨["plugins"], true⟩, ⟨["plugins", "foo.dll"], false⟩]

/-- Installing `authorA-Foo-1.0.0` from `exArchive` with plugins enabled. -/
def exInput : InstallInput := ⟨exGameRoot, exArchive, "authorA-Foo-1.0.0", true⟩

/-- The filesystem right after staging-directory creation on an empty disk. -/
def exStagedBase : FSys :=
  ⟨[["game"], ["game", "R2Northstar"], ["game", "R2Northstar", "plugins"],
    ["game", "R2Northstar", "plugins", "___flightcore-temp-plugin-dir"]], []⟩

/-- The filesystem after extracting `exArchive` into the staging directory. -/
def exStaged : FSys :=
  ⟨[["game"], ["game", "R2Northstar"], ["game", "R2Northstar", "plugins"],
    ["game", "R2Northstar", "plugins", "___flightcore-temp-plugin-dir"],
    ["game", "R2Northstar", "plugins", "___flightcore-temp-plugin-dir", "plugins"]],
   [["game", "R2Northstar", "plugins", "___flightcore-temp-plugin-dir", "manifest.json"],
    ["game", "R2Northstar", "plugins", "___flightcore-temp-plugin-dir", "plugins", "foo.dll"]]⟩

/-! ## Claims -/

/-- **C7.** The mod-string parser maps `"author-some-mod-name-1.2.3"` to
`{author: "author", name: "some-mod-name", version: "1.2.3"}` — names with
hyphens parse, the author and version being the first and last
hyphen-delimited tokens — and fails (a `ParseError`, i.e. `none`) on every
string with fewer than two hyphens. -/
theorem from_str_parse_spec :
    ParsedThunderstoreModString.from_str "author-some-mod-name-1.2.3" =
      some ⟨"author", "some-mod-name", "1.2.3"⟩ ∧
    ∀ s : String, s.data.count '-' < 2 →
      ParsedThunderstoreModString.from_str s = none := by
  refine ⟨by decide, ?_⟩
  intro s hs
  have hl : (splitOnChar '-' s.data).length < 3 := by
    rw [splitOnChar_length]; omega
  unfold ParsedThunderstoreModString.from_str
  cases hp : splitOnChar '-' s.data with
  | nil => rfl
  | cons a t =>
    cases t with
    | nil => rfl
    | cons b u =>
      cases u with
      | nil => rfl
      | cons c rest =>
        rw [hp] at hl
        simp at hl
        omega

/-- Witness for C7: `"onlyonehyphen"` has fewer than two hyphens and is
rejected. -/
theorem from_str_parse_spec_witness :
    "onlyonehyphen".data.count '-' < 2 ∧
      ParsedThunderstoreModString.from_str "onlyonehyphen" = none :=
  ⟨by decide, from_str_parse_spec.2 "onlyonehyphen" (by decide)⟩

/-- **C1.** For every call to `install_plugin` whose staging-directory
creation succeeds, the scoped teardown of the staging directory runs
exactly once before the call returns — on every exit path the model can
take — and afterwards nothing exists at or below the staging directory. -/
theorem installPlugin_teardown_exactly_once
    (inp : InstallInput) (fs0 fs1 : FSys) (consent : Option Bool)
    (hcreate : fs0.mkdirAll (tempDirOf inp.gameRoot) = (fs1, none)) :
    (installPlugin inp fs0 consent).teardownCount = 1 ∧
    ∀ q : Path, (tempDirOf inp.gameRoot).isPrefixOf q = true →
      ¬ (installPlugin inp fs0 consent).fs.pathExists q := by
  simp only [installPlugin, hcreate]
  exact ⟨trivial, fun _ hq => not_pathExists_removeDirAll hq⟩

/-- Witness for C1: a concrete install on an empty disk tears the staging
directory down exactly once and leaves it nonexistent. -/
theorem installPlugin_teardown_exactly_once_witness :
    (installPlugin exInput ⟨[], []⟩ (some true)).teardownCount = 1 ∧
    ¬ (installPlugin exInput ⟨[], []⟩ (some true)).fs.pathExists
        (tempDirOf exInput.gameRoot) :=
  ⟨(installPlugin_teardown_exactly_once exInput ⟨[], []⟩ exStagedBase (some true)
      (by decide)).1,
   (installPlugin_teardown_exactly_once exInput ⟨[], []⟩ exStagedBase (some true)
      (by decide)).2 (tempDirOf exInput.gameRoot) (by decide)⟩

instance : DecidableEq (Except InstallError (List String))
  | .ok a, .ok b =>
    if h : a = b then .isTrue (congrArg Except.ok h)
    else .isFalse (fun hh => h (Except.ok.inj hh))
  | .ok _, .error _ => .isFalse (fun hh => Except.noConfusion hh)
  | .error _, .ok _ => .isFalse (fun hh => Except.noConfusion hh)
  | .error e, .error f =>
    if h : e = f then .isTrue (congrArg Except.error h)
    else .isFalse (fun hh => h (Except.error.inj hh))

/-- How the body behaves once staging and detection have succeeded with a
nonempty plugin list: disabled-capability failure, denial, or the
post-gate pipeline, exactly as the consent gate decides. -/
theorem installBody_gate
    (inp : InstallInput) (fs1 fs2 : FSys) (consent : Option Bool)
    (parsed : ParsedThunderstoreModString) (plugins : List String)
    (hparse : ParsedThunderstoreModString.from_str inp.modString = some parsed)
    (hextract : extractAll (tempDirOf inp.gameRoot) inp.archive fs1 = (fs2, none))
    (hdetect : detectPlugins fs2 (tempDirOf inp.gameRoot) = .ok plugins)
    (hne : plugins ≠ []) :
    installBody inp fs1 consent =
      if inp.canInstallPlugins then
        (if consent.getD false then
          ⟨(postGate (pluginsDirOf inp.gameRoot) (tempDirOf inp.gameRoot)
              parsed.mod_name
              (parsed.author_name ++ "-" ++ parsed.mod_name ++ "-" ++ parsed.version)
              plugins fs2).2,
           (postGate (pluginsDirOf inp.gameRoot) (tempDirOf inp.gameRoot)
              parsed.mod_name
              (parsed.author_name ++ "-" ++ parsed.mod_name ++ "-" ++ parsed.version)
              plugins fs2).1, 1, none⟩
         else ⟨some .userDenied, fs2, 1, none⟩)
      else ⟨some .pluginsDisabled, fs2, 0, consent⟩ := by
  simp only [installBody, hparse, hextract, hdetect]
  rw [if_pos hne]
  by_cases hcan : inp.canInstallPlugins
  · rw [if_neg (by simp [hcan]), if_pos hcan]
  · rw [if_pos (by simp [hcan]), if_neg hcan]

/-- **C2.** When the detector found at least one plugin file and the
capability flag is off, `install_plugin` returns `PluginsDisabled` with no
front-end notification emitted and without touching the consent channel,
and the staging directory no longer exists afterwards. -/
theorem installPlugin_plugins_disabled
    (inp : InstallInput) (fs0 fs1 fs2 : FSys) (consent : Option Bool)
    (parsed : ParsedThunderstoreModString) (plugins : List String)
    (hcreate : fs0.mkdirAll (tempDirOf inp.gameRoot) = (fs1, none))
    (hparse : ParsedThunderstoreModString.from_str inp.modString = some parsed)
    (hextract : extractAll (tempDirOf inp.gameRoot) inp.archive fs1 = (fs2, none))
    (hdetect : detectPlugins fs2 (tempDirOf inp.gameRoot) = .ok plugins)
    (hne : plugins ≠ [])
    (hcan : inp.canInstallPlugins = false) :
    (installPlugin inp fs0 consent).res = some .pluginsDisabled ∧
    (installPlugin inp fs0 consent).warningsEmitted = 0 ∧
    (installPlugin inp fs0 consent).consentLeft = consent ∧
    ∀ q : Path, (tempDirOf inp.gameRoot).isPrefixOf q = true →
      ¬ (installPlugin inp fs0 consent).fs.pathExists q := by
  have hbody := installBody_gate inp fs1 fs2 consent parsed plugins
    hparse hextract hdetect hne
  rw [hcan] at hbody
  simp only [Bool.false_eq_true, if_false] at hbody
  simp only [installPlugin, hcreate, hbody]
  exact ⟨trivial, trivial, trivial, fun _ hq => not_pathExists_removeDirAll hq⟩

/-- Witness for C2: the concrete plugin archive with the capability flag
off yields `PluginsDisabled`, zero emitted warnings, an untouched consent
slot and no staging directory. -/
theorem installPlugin_plugins_disabled_witness :
    (installPlugin ⟨exGameRoot, exArchive, "authorA-Foo-1.0.0", false⟩ ⟨[], []⟩
        (some true)).res = some .pluginsDisabled ∧
    (installPlugin ⟨exGameRoot, exArchive, "authorA-Foo-1.0.0", false⟩ ⟨[], []⟩
        (some true)).warningsEmitted = 0 ∧
    (installPlugin ⟨exGameRoot, exArchive, "authorA-Foo-1.0.0", false⟩ ⟨[], []⟩
        (some true)).consentLeft = some true ∧
    ¬ (installPlugin ⟨exGameRoot, exArchive, "authorA-Foo-1.0.0", false⟩ ⟨[], []⟩
        (some true)).fs.pathExists (tempDirOf exGameRoot) := by
  have h := installPlugin_plugins_disabled
    ⟨exGameRoot, exArchive, "authorA-Foo-1.0.0", false⟩ ⟨[], []⟩
    exStagedBase exStaged (some true) ⟨"authorA", "Foo", "1.0.0"⟩ ["foo.dll"]
    (by decide) (by decide) (by decide) (by decide) (by decide) (by decide)
  exact ⟨h.1, h.2.1, h.2.2.1, h.2.2.2 (tempDirOf exGameRoot) (by decide)⟩

/-- **C3.** With at least one detected plugin and the capability flag on:
a `false` decision on the consent channel makes `install_plugin` return
`UserDenied` with the final filesystem being exactly the staged one minus
the staging directory (so no destination directory was created and no
prior install deleted); a `true` decision makes the pipeline proceed into
conflict resolution and commit (`postGate`). -/
theorem installPlugin_consent_decision
    (inp : InstallInput) (fs0 fs1 fs2 : FSys)
    (parsed : ParsedThunderstoreModString) (plugins : List String)
    (hcreate : fs0.mkdirAll (tempDirOf inp.gameRoot) = (fs1, none))
    (hparse : ParsedThunderstoreModString.from_str inp.modString = some parsed)
    (hextract : extractAll (tempDirOf inp.gameRoot) inp.archive fs1 = (fs2, none))
    (hdetect : detectPlugins fs2 (tempDirOf inp.gameRoot) = .ok plugins)
    (hne : plugins ≠ [])
    (hcan : inp.canInstallPlugins = true) :
    installPlugin inp fs0 (some false) =
      ⟨some .userDenied, fs2.removeDirAll (tempDirOf inp.gameRoot), 1, none, 1⟩ ∧
    installPlugin inp fs0 (some true) =
      ⟨(postGate (pluginsDirOf inp.gameRoot) (tempDirOf inp.gameRoot)
          parsed.mod_name
          (parsed.author_name ++ "-" ++ parsed.mod_name ++ "-" ++ parsed.version)
          plugins fs2).2,
       (postGate (pluginsDirOf inp.gameRoot) (tempDirOf inp.gameRoot)
          parsed.mod_name
          (parsed.author_name ++ "-" ++ parsed.mod_name ++ "-" ++ parsed.version)
          plugins fs2).1.removeDirAll (tempDirOf inp.gameRoot), 1, none, 1⟩ := by
  constructor
  · have hbody := installBody_gate inp fs1 fs2 (some false) parsed plugins
      hparse hextract hdetect hne
    rw [hcan] at hbody
    simp only [Option.getD_some, if_true, if_false, Bool.false_eq_true] at hbody
    simp only [installPlugin, hcreate, hbody]
  · have hbody := installBody_gate inp fs1 fs2 (some true) parsed plugins
      hparse hextract hdetect hne
    rw [hcan] at hbody
    simp only [Option.getD_some, if_true] at hbody
    simp only [installPlugin, hcreate, hbody]

/-- Witness for C3: on the concrete archive, denial gives `UserDenied` and
only removes the staging directory; approval runs the post-gate pipeline. -/
theorem installPlugin_consent_decision_witness :
    installPlugin exInput ⟨[], []⟩ (some false) =
      ⟨some .userDenied, exStaged.removeDirAll (tempDirOf ["game"]), 1, none, 1⟩ ∧
    installPlugin exInput ⟨[], []⟩ (some true) =
      ⟨(postGate (pluginsDirOf ["game"]) (tempDirOf ["game"]) "Foo"
          "authorA-Foo-1.0.0" ["foo.dll"] exStaged).2,
       (postGate (pluginsDirOf ["game"]) (tempDirOf ["game"]) "Foo"
          "authorA-Foo-1.0.0" ["foo.dll"] exStaged).1.removeDirAll
          (tempDirOf ["game"]), 1, none, 1⟩ :=
  installPlugin_consent_decision exInput ⟨[], []⟩ exStagedBase exStaged
    ⟨"authorA", "Foo", "1.0.0"⟩ ["foo.dll"]
    (by decide) (by decide) (by decide) (by decide) (by decide) (by decide)

/-- **C9.** When the consent channel yields no value (`recv` resolves to
`None`), an install awaiting a decision behaves exactly as on an explicit
denial: it returns `UserDenied` — its whole observable outcome equals that
of `submit_consent(false)` — rather than proceeding as approved. -/
theorem installPlugin_closed_channel_denies
    (inp : InstallInput) (fs0 fs1 fs2 : FSys)
    (parsed : ParsedThunderstoreModString) (plugins : List String)
    (hcreate : fs0.mkdirAll (tempDirOf inp.gameRoot) = (fs1, none))
    (hparse : ParsedThunderstoreModString.from_str inp.modString = some parsed)
    (hextract : extractAll (tempDirOf inp.gameRoot) inp.archive fs1 = (fs2, none))
    (hdetect : detectPlugins fs2 (tempDirOf inp.gameRoot) = .ok plugins)
    (hne : plugins ≠ [])
    (hcan : inp.canInstallPlugins = true) :
    (installPlugin inp fs0 none).res = some .userDenied ∧
    installPlugin inp fs0 none = installPlugin inp fs0 (some false) := by
  have hbodyn := installBody_gate inp fs1 fs2 none parsed plugins
    hparse hextract hdetect hne
  have hbodyf := installBody_gate inp fs1 fs2 (some false) parsed plugins
    hparse hextract hdetect hne
  rw [hcan] at hbodyn hbodyf
  simp only [Option.getD_none, Option.getD_some, if_true, if_false,
    Bool.false_eq_true] at hbodyn hbodyf
  constructor
  · simp only [installPlugin, hcreate, hbodyn]
  · simp only [installPlugin, hcreate, hbodyn, hbodyf]

/-- Witness for C9: the concrete archive with an empty consent channel is
denied, identically to an explicit `false`. -/
theorem installPlugin_closed_channel_denies_witness :
    (installPlugin exInput ⟨[], []⟩ none).res = some .userDenied ∧
    installPlugin exInput ⟨[], []⟩ none = installPlugin exInput ⟨[], []⟩ (some false) :=
  installPlugin_closed_channel_denies exInput ⟨[], []⟩ exStagedBase exStaged
    ⟨"authorA", "Foo", "1.0.0"⟩ ["foo.dll"]
    (by decide) (by decide) (by decide) (by decide) (by decide) (by decide)

/-- The filesystem after staging an archive with a manifest and a readme
but no `plugins/` subdirectory. -/
def exStagedNoPlugins : FSys :=
  ⟨exStagedBase.dirs,
   [["game", "R2Northstar", "plugins", "___flightcore-temp-plugin-dir", "manifest.json"],
    ["game", "R2Northstar", "plugins", "___flightcore-temp-plugin-dir", "README.md"]]⟩

/-- The filesystem after staging an archive whose `plugins/` directory is
empty. -/
def exStagedEmptyPlugins : FSys :=
  ⟨exStagedBase.dirs ++
     [["game", "R2Northstar", "plugins", "___flightcore-temp-plugin-dir", "plugins"]],
   [["game", "R2Northstar", "plugins", "___flightcore-temp-plugin-dir", "manifest.json"]]⟩

/-- **C4 counterexample.** An archive that stages a manifest and other
content (`README.md`) but no `plugins/` subdirectory *does* cause install
to fail with `MissingFile` — refuting the claim that it does not. -/
theorem installPlugin_manifest_only_missing_file_cex :
    (installPlugin ⟨["game"], [⟨["manifest.json"], false⟩, ⟨["README.md"], false⟩],
        "authorA-Foo-1.0.0", true⟩ ⟨[], []⟩ (some true)).res =
      some (.missingFile (tempDirOf ["game"] ++ ["plugins"])) := by decide

/-- **C4 (amended).** After successful staging, whenever the staged
`plugins/` subdirectory cannot be read (in particular when it does not
exist), install fails with `MissingFile(<staging>/plugins)` regardless of
any other staged content; and when the detector returns an empty list,
install fails with `MissingFile(<staging>/plugins/anyplugins.dll)`. -/
theorem installPlugin_no_plugins_missing_file
    (inp : InstallInput) (fs0 fs1 fs2 : FSys) (consent : Option Bool)
    (parsed : ParsedThunderstoreModString)
    (hcreate : fs0.mkdirAll (tempDirOf inp.gameRoot) = (fs1, none))
    (hparse : ParsedThunderstoreModString.from_str inp.modString = some parsed)
    (hextract : extractAll (tempDirOf inp.gameRoot) inp.archive fs1 = (fs2, none)) :
    (fs2.readDir (tempDirOf inp.gameRoot ++ ["plugins"]) = none →
      (installPlugin inp fs0 consent).res =
        some (.missingFile (tempDirOf inp.gameRoot ++ ["plugins"]))) ∧
    (detectPlugins fs2 (tempDirOf inp.gameRoot) = .ok [] →
      (installPlugin inp fs0 consent).res =
        some (.missingFile (tempDirOf inp.gameRoot ++ ["plugins", "anyplugins.dll"]))) := by
  constructor
  · intro hrd
    have hdet : detectPlugins fs2 (tempDirOf inp.gameRoot) =
        .error (.missingFile (tempDirOf inp.gameRoot ++ ["plugins"])) := by
      unfold detectPlugins
      rw [hrd]
    have hbody : installBody inp fs1 consent =
        ⟨some (.missingFile (tempDirOf inp.gameRoot ++ ["plugins"])), fs2, 0, consent⟩ := by
      simp only [installBody, hparse, hextract, hdet]
    simp only [installPlugin, hcreate, hbody]
  · intro hdet
    have hbody : installBody inp fs1 consent =
        ⟨some (.missingFile (tempDirOf inp.gameRoot ++ ["plugins", "anyplugins.dll"])),
         fs2, 0, consent⟩ := by
      simp only [installBody, hparse, hextract, hdet]
      rw [if_neg (by simp)]
    simp only [installPlugin, hcreate, hbody]

/-- Witness for the amended C4: both failure shapes at concrete inputs —
manifest + readme but no `plugins/` gives `MissingFile(<staging>/plugins)`,
and an empty `plugins/` gives `MissingFile(<staging>/plugins/anyplugins.dll)`. -/
theorem installPlugin_no_plugins_missing_file_witness :
    (installPlugin ⟨["game"], [⟨["manifest.json"], false⟩, ⟨["README.md"], false⟩],
        "authorA-Foo-1.0.0", true⟩ ⟨[], []⟩ (some true)).res =
      some (.missingFile (tempDirOf ["game"] ++ ["plugins"])) ∧
    (installPlugin ⟨["game"], [⟨["manifest.json"], false⟩, ⟨["plugins"], true⟩],
        "authorA-Foo-1.0.0", true⟩ ⟨[], []⟩ (some true)).res =
      some (.missingFile (tempDirOf ["game"] ++ ["plugins", "anyplugins.dll"])) :=
  ⟨(installPlugin_no_plugins_missing_file
      ⟨["game"], [⟨["manifest.json"], false⟩, ⟨["README.md"], false⟩],
        "authorA-Foo-1.0.0", true⟩ ⟨[], []⟩ exStagedBase exStagedNoPlugins
      (some true) ⟨"authorA", "Foo", "1.0.0"⟩
      (by decide) (by decide) (by decide)).1 (by decide),
   (installPlugin_no_plugins_missing_file
      ⟨["game"], [⟨["manifest.json"], false⟩, ⟨["plugins"], true⟩],
        "authorA-Foo-1.0.0", true⟩ ⟨[], []⟩ exStagedBase exStagedEmptyPlugins
      (some true) ⟨"authorA", "Foo", "1.0.0"⟩
      (by decide) (by decide) (by decide)).2 (by decide)⟩

/-- **C5.** The conflict resolver deletes every immediate subdirectory of
the live plugins directory whose name parses as an identifier with the
incoming package's `name` (author and version ignored); consequently,
installing `authorB-Foo-2.0.0` over a previously installed
`authorA-Foo-1.0.0` succeeds and leaves only `authorB-Foo-2.0.0` in the
plugins directory. -/
theorem resolveConflicts_removes_same_name :
    (∀ (fs : FSys) (pd td : Path) (pkg : String) (names : List String)
       (n : String) (q : ParsedThunderstoreModString),
       fs.readDir pd = some names → n ∈ names →
       (pd ++ [n]) ∈ fs.dirs →
       ParsedThunderstoreModString.from_str n = some q → q.mod_name = pkg →
       (pd ++ [n]) ∉ (resolveConflicts pd td pkg fs).1.dirs) ∧
    ((installPlugin exInput ⟨[], []⟩ (some true)).res = none ∧
     (installPlugin ⟨["game"], exArchive, "authorB-Foo-2.0.0", true⟩
        (installPlugin exInput ⟨[], []⟩ (some true)).fs (some true)).res = none ∧
     (installPlugin ⟨["game"], exArchive, "authorB-Foo-2.0.0", true⟩
        (installPlugin exInput ⟨[], []⟩ (some true)).fs (some true)).fs.readDir
        (pluginsDirOf ["game"]) = some ["authorB-Foo-2.0.0"]) := by
  constructor
  · intro fs pd td pkg names n q hrd hn hdir hps hname
    unfold resolveConflicts
    rw [hrd]
    apply not_mem_dirs_foldRemove
    rw [List.mem_filter]
    refine ⟨hn, ?_⟩
    rw [hps]
    simp only [Bool.and_eq_true, decide_eq_true_eq]
    exact ⟨hdir, hname⟩
  · exact ⟨by decide, by decide, by decide⟩

/-- Witness for C5: the universal half applied to the filesystem left by
the first concrete install, deleting `authorA-Foo-1.0.0` when package
`Foo` comes in again. -/
theorem resolveConflicts_removes_same_name_witness :
    (pluginsDirOf ["game"] ++ ["authorA-Foo-1.0.0"]) ∉
      (resolveConflicts (pluginsDirOf ["game"]) (tempDirOf ["game"]) "Foo"
        (installPlugin exInput ⟨[], []⟩ (some true)).fs).1.dirs :=
  resolveConflicts_removes_same_name.1
    (installPlugin exInput ⟨[], []⟩ (some true)).fs
    (pluginsDirOf ["game"]) (tempDirOf ["game"]) "Foo"
    ["authorA-Foo-1.0.0"] "authorA-Foo-1.0.0" ⟨"authorA", "Foo", "1.0.0"⟩
    (by decide) (by decide) (by decide) (by decide) (by decide)

/-- **C6 (divergence).** Extraction of a concrete archive: the
unresolvable traversal entry `../evil.txt` and the literal `./cur.txt`
entry are skipped and extraction still succeeds — but the hidden-named
entry `.hidden` is *not* skipped: it is extracted into the staging
directory.  Rust's `Path::starts_with(".")` compares whole path
components (the base `"."` is the `CurDir` component), so a first
component `".hidden"` fails the check, contradicting the claim that paths
starting with a hidden-file marker are never written. -/
theorem extractAll_hidden_entry_not_skipped :
    extractAll (tempDirOf ["game"])
      [⟨["..", "evil.txt"], false⟩, ⟨[".", "cur.txt"], false⟩,
       ⟨[".hidden"], false⟩, ⟨["ok.txt"], false⟩] exStagedBase =
    (⟨exStagedBase.dirs,
      [tempDirOf ["game"] ++ [".hidden"], tempDirOf ["game"] ++ ["ok.txt"]]⟩,
     none) := by decide

theorem isPrefixOf_self (l : Path) : l.isPrefixOf l = true := by
  simp [List.isPrefixOf_iff_prefix]

theorem isPrefixOf_append (l t : Path) : l.isPrefixOf (l ++ t) = true := by
  simp [List.isPrefixOf_iff_prefix]

/-- **C8.** The commit step creates the destination directory
`<plugins>/<author>-<name>-<version>` when nothing exists there, copies
the staged manifest into it and copies every detected plugin file into it
under its bare file name; and when a copy cannot be performed (the staged
manifest file is absent), the whole step fails with `IoError`. -/
theorem commitStep_spec (pd td : Path) (folder : String) (plugins : List String)
    (fs : FSys) :
    ((pd ∈ fs.dirs) →
     ((td ++ ["manifest.json"]) ∈ fs.files) →
     (∀ n ∈ plugins, (td ++ ["plugins", n]) ∈ fs.files) →
     (∀ q : Path, (pd ++ [folder]).isPrefixOf q = true → ¬ fs.pathExists q) →
     ∃ fs', commitStep pd td folder plugins fs = (fs', none) ∧
       (pd ++ [folder]) ∈ fs'.dirs ∧
       ((pd ++ [folder]) ++ ["manifest.json"]) ∈ fs'.files ∧
       ∀ n ∈ plugins, ((pd ++ [folder]) ++ [n]) ∈ fs'.files) ∧
    ((td ++ ["manifest.json"]) ∉ fs.files →
      (commitStep pd td folder plugins fs).2 = some .ioError) := by
  constructor
  · intro hpd hman hsrc hfresh
    have hdest : ¬ fs.pathExists (pd ++ [folder]) :=
      hfresh _ (isPrefixOf_self _)
    have hchild : ∀ t : Path, (pd ++ [folder]) ++ t ∉ fs.dirs := fun t ht =>
      hfresh _ (isPrefixOf_append _ t) (Or.inl ht)
    have append_ne : ∀ (t : Path) (x : String),
        (pd ++ [folder]) ++ (x :: t) ≠ pd ++ [folder] := by
      intro t x h
      have h2 := congrArg List.length h
      simp at h2
    have hnd : ∀ (x : String) (t : Path),
        (pd ++ [folder]) ++ (x :: t) ∉ addPath fs.dirs (pd ++ [folder]) := by
      intro x t h
      rcases mem_addPath.mp h with h' | h'
      · exact hchild _ h'
      · exact append_ne t x h'
    have hcd : fs.createDir (pd ++ [folder]) =
        ({ fs with dirs := addPath fs.dirs (pd ++ [folder]) }, none) := by
      unfold FSys.createDir
      rw [if_pos ⟨by rw [dropLast_append_one]; exact hpd, hdest⟩]
    have hcopy :
        ({ fs with dirs := addPath fs.dirs (pd ++ [folder]) } : FSys).copyFile
            (td ++ ["manifest.json"]) ((pd ++ [folder]) ++ ["manifest.json"]) =
          ({ fs with
              dirs := addPath fs.dirs (pd ++ [folder]),
              files := addPath fs.files ((pd ++ [folder]) ++ ["manifest.json"]) },
           none) := by
      unfold FSys.copyFile
      rw [if_pos ⟨hman, by rw [dropLast_append_one]; exact self_mem_addPath,
        hnd "manifest.json" []⟩]
    obtain ⟨fs', h1, h2, h3, h4⟩ := copyPlugins_ok td (pd ++ [folder]) plugins
      { fs with
          dirs := addPath fs.dirs (pd ++ [folder]),
          files := addPath fs.files ((pd ++ [folder]) ++ ["manifest.json"]) }
      self_mem_addPath
      (fun m hm => mem_addPath_of_mem (hsrc m hm))
      (fun m _ => hnd m [])
    refine ⟨fs', ?_, ?_, ?_, fun n hn => h4 n hn⟩
    · simp only [commitStep]
      rw [if_neg hdest, hcd]
      simp only [hcopy]
      exact h1
    · rw [h2]
      exact self_mem_addPath
    · exact h3 _ self_mem_addPath
  · intro hman
    have hcopyfail : ∀ gs : FSys, gs.files = fs.files →
        gs.copyFile (td ++ ["manifest.json"]) ((pd ++ [folder]) ++ ["manifest.json"]) =
          (gs, some .ioError) := by
      intro gs hgs
      unfold FSys.copyFile
      rw [if_neg (by rw [hgs]; exact fun h => hman h.1)]
    simp only [commitStep]
    by_cases hex : fs.pathExists (pd ++ [folder])
    · rw [if_pos hex]
      simp only [hcopyfail fs rfl]
    · rw [if_neg hex]
      by_cases hcd : (pd ++ [folder]).dropLast ∈ fs.dirs ∧
          ¬(pd ++ [folder] ∈ fs.dirs ∨ pd ++ [folder] ∈ fs.files)
      · have h1 : fs.createDir (pd ++ [folder]) =
            ({ fs with dirs := addPath fs.dirs (pd ++ [folder]) }, none) := by
          unfold FSys.createDir
          rw [if_pos hcd]
        rw [h1]
        simp only [hcopyfail { fs with dirs := addPath fs.dirs (pd ++ [folder]) } rfl]
      · have h1 : fs.createDir (pd ++ [folder]) = (fs, some .ioError) := by
          unfold FSys.createDir
          rw [if_neg hcd]
        rw [h1]

/-- Witness for C8: committing the concretely staged `authorA-Foo-1.0.0`
package creates its directory with the manifest and `foo.dll` inside. -/
theorem commitStep_spec_witness :
    ∃ fs', commitStep (pluginsDirOf ["game"]) (tempDirOf ["game"])
        "authorA-Foo-1.0.0" ["foo.dll"] exStaged = (fs', none) ∧
      (pluginsDirOf ["game"] ++ ["authorA-Foo-1.0.0"]) ∈ fs'.dirs ∧
      ((pluginsDirOf ["game"] ++ ["authorA-Foo-1.0.0"]) ++ ["manifest.json"]) ∈ fs'.files ∧
      ∀ n ∈ ["foo.dll"],
        ((pluginsDirOf ["game"] ++ ["authorA-Foo-1.0.0"]) ++ [n]) ∈ fs'.files :=
  (commitStep_spec (pluginsDirOf ["game"]) (tempDirOf ["game"])
      "authorA-Foo-1.0.0" ["foo.dll"] exStaged).1
    (by decide) (by decide) (by decide)
    (by
      intro q hq hex
      rcases hex with hd | hf
      · revert hd
        simp only [exStaged, FSys.isDir, List.mem_cons, List.not_mem_nil, or_false]
        rintro (rfl | rfl | rfl | rfl | rfl) <;> revert hq <;> decide
      · revert hf
        simp only [exStaged, FSys.isFile, List.mem_cons, List.not_mem_nil, or_false]
        rintro (rfl | rfl) <;> revert hq <;> decide)

/-- The filesystem after extracting an archive that also carries a nested
`plugins/nested/inner.dll`. -/
def exStagedNested : FSys :=
  ⟨[["game"], ["game", "R2Northstar"], ["game", "R2Northstar", "plugins"],
    ["game", "R2Northstar", "plugins", "___flightcore-temp-plugin-dir"],
    ["game", "R2Northstar", "plugins", "___flightcore-temp-plugin-dir", "plugins"],
    ["game", "R2Northstar", "plugins", "___flightcore-temp-plugin-dir", "plugins", "nested"]],
   [["game", "R2Northstar", "plugins", "___flightcore-temp-plugin-dir", "manifest.json"],
    ["game", "R2Northstar", "plugins", "___flightcore-temp-plugin-dir", "plugins", "top.dll"],
    ["game", "R2Northstar", "plugins", "___flightcore-temp-plugin-dir", "plugins", "nested",
     "inner.dll"]]⟩

/-- `exArchive` plus a native binary nested under `plugins/nested/`. -/
def exInputNested : InstallInput :=
  ⟨exGameRoot,
   [⟨["manifest.json"], false⟩, ⟨["plugins"], true⟩, ⟨["plugins", "top.dll"], false⟩,
    ⟨["plugins", "nested"], true⟩, ⟨["plugins", "nested", "inner.dll"], false⟩],
   "authorA-Foo-1.0.0", true⟩

/-- **C10.** Plugin detection lists exactly the immediate entries of the
staged `plugins/` directory whose extension is `dll` (no recursion into
subdirectories); concretely, a dll nested under `plugins/nested/` is
neither detected nor copied by the commit step. -/
theorem detectPlugins_immediate_dll_only :
    (∀ (fs : FSys) (td : Path) (names : List String),
       fs.readDir (td ++ ["plugins"]) = some names →
       detectPlugins fs td =
         .ok (names.filter (fun n => decide (rustExtension n = some "dll"))) ∧
       ∀ n : String,
         n ∈ names.filter (fun n => decide (rustExtension n = some "dll")) ↔
           (((td ++ ["plugins"]) ++ [n]) ∈ fs.dirs ∨
            ((td ++ ["plugins"]) ++ [n]) ∈ fs.files) ∧
           rustExtension n = some "dll") ∧
    (detectPlugins exStagedNested (tempDirOf ["game"]) = .ok ["top.dll"] ∧
     (installPlugin exInputNested ⟨[], []⟩ (some true)).res = none ∧
     (installPlugin exInputNested ⟨[], []⟩ (some true)).fs.readDir
       (pluginsDirOf ["game"] ++ ["authorA-Foo-1.0.0"]) =
       some ["manifest.json", "top.dll"] ∧
     (pluginsDirOf ["game"] ++ ["authorA-Foo-1.0.0", "inner.dll"]) ∉
       (installPlugin exInputNested ⟨[], []⟩ (some true)).fs.files ∧
     (pluginsDirOf ["game"] ++ ["authorA-Foo-1.0.0", "nested", "inner.dll"]) ∉
       (installPlugin exInputNested ⟨[], []⟩ (some true)).fs.files) := by
  constructor
  · intro fs td names hrd
    constructor
    · unfold detectPlugins
      rw [hrd]
    · intro n
      rw [List.mem_filter, mem_readDir hrd]
      simp only [decide_eq_true_eq]
  · exact ⟨by decide, by decide, by decide, by decide, by decide⟩

/-- Witness for C10: the detector applied to the concrete nested staging
tree lists only `top.dll`, and the characterization instantiated at
`"inner.dll"` shows it is not detected. -/
theorem detectPlugins_immediate_dll_only_witness :
    detectPlugins exStagedNested (tempDirOf ["game"]) =
      .ok (["nested", "top.dll"].filter
        (fun n => decide (rustExtension n = some "dll"))) ∧
    ("inner.dll" ∈ ["nested", "top.dll"].filter
        (fun n => decide (rustExtension n = some "dll")) ↔
      (((tempDirOf ["game"] ++ ["plugins"]) ++ ["inner.dll"]) ∈ exStagedNested.dirs ∨
       ((tempDirOf ["game"] ++ ["plugins"]) ++ ["inner.dll"]) ∈ exStagedNested.files) ∧
      rustExtension "inner.dll" = some "dll") :=
  ⟨((detectPlugins_immediate_dll_only.1 exStagedNested (tempDirOf ["game"])
      ["nested", "top.dll"] (by decide)).1),
   ((detectPlugins_immediate_dll_only.1 exStagedNested (tempDirOf ["game"])
      ["nested", "top.dll"] (by decide)).2 "inner.dll")⟩

end FlightCore
